import Mathlib

/-!
Shallow embedding of `src/backend/app/storage/json_data_model.py`
(the bookstore data models of the Universal Metadata Browser).

Python values flowing through the model are embedded as `JValue`
(JSON values plus Python `datetime.date` objects, since the
`publication_date` validator checks `isinstance(v, date)`).
Python `float` is modelled as `Rat`; `floatRepr` below is an abstract
stand-in for CPython's float `repr` (nothing in this development
depends on its exact digits).  Python dicts are embedded as ordered
association lists with unique keys (`Dict`).
-/

/-- Embedding of `datetime.date`: a year/month/day triple. -/
structure PyDate where
  year : Nat
  month : Nat
  day : Nat
deriving DecidableEq, Repr

/-- Embedding of the values a parsed-JSON Python object can hold, plus
`datetime.date` (accepted by the `publication_date` validator). -/
inductive JValue where
  | null
  | bool (b : Bool)
  | int (n : Int)
  | float (q : Rat)
  | str (s : String)
  | date (d : PyDate)
  | arr (xs : List JValue)
  | obj (kvs : List (String × JValue))

/-- Embedding of a Python `dict[str, Any]`: an insertion-ordered
association list.  Real Python dicts have unique keys; theorems that
need this take a `nodupKeys` hypothesis. -/
abbrev Dict := List (String × JValue)

/-- `d[k]` lookup (first occurrence). -/
def Dict.get : Dict → String → Option JValue
  | [], _ => none
  | kv :: rest, k => if kv.1 = k then some kv.2 else Dict.get rest k

/-- `k in d`. -/
def Dict.hasKey : Dict → String → Bool
  | [], _ => false
  | kv :: rest, k => if kv.1 = k then true else Dict.hasKey rest k

/-- `d[k] = v`: replace the first binding of `k` in place, else append. -/
def Dict.set : Dict → String → JValue → Dict
  | [], k, v => [(k, v)]
  | kv :: rest, k, v => if kv.1 = k then (k, v) :: rest else kv :: Dict.set rest k v

/-- `d.update(r)`: Python `dict.update`, setting each binding of `r` in order. -/
def Dict.updateWith (d r : Dict) : Dict :=
  r.foldl (fun acc kv => Dict.set acc kv.1 kv.2) d

/-- The keys of a dict, in order. -/
def Dict.keys (d : Dict) : List String := d.map Prod.fst

/-- Python dicts cannot bind the same key twice. -/
def Dict.nodupKeys (d : Dict) : Prop := d.keys.Nodup

/-! ### Python string primitives used by the validators -/

/-- The whitespace characters recognized by `str.strip()` and by the
regex class `\s` (ASCII range). -/
def isPyWs (c : Char) : Bool :=
  c = ' ' || c = Char.ofNat 9 || c = Char.ofNat 10 || c = Char.ofNat 13 ||
    c = Char.ofNat 11 || c = Char.ofNat 12

/-- `str.strip()` on a character list. -/
def stripList (l : List Char) : List Char :=
  ((l.dropWhile isPyWs).reverse.dropWhile isPyWs).reverse

/-- `re.sub(r"\s+", " ", ·)`: collapse each maximal run of whitespace
into a single space. -/
def collapseList : List Char → List Char
  | [] => []
  | [c] => if isPyWs c then [' '] else [c]
  | c :: d :: rest =>
    if isPyWs c then
      if isPyWs d then collapseList (d :: rest)
      else ' ' :: collapseList (d :: rest)
    else c :: collapseList (d :: rest)

/-- `s.strip()`. -/
def pyStripS (s : String) : String := ⟨stripList s.data⟩

/-- `re.sub(r"\s+", " ", s)`. -/
def collapseWsS (s : String) : String := ⟨collapseList s.data⟩

/-- Decimal digit character. -/
def digitChar (n : Nat) : Char := Char.ofNat (48 + n)

/-- Fuel-driven decimal rendering of a natural number (the fuel is an
upper bound on the number of digits, so it is never exhausted). -/
def natReprAux : Nat → Nat → List Char
  | 0, _ => []
  | fuel + 1, n => if n < 10 then [digitChar n] else natReprAux fuel (n / 10) ++ [digitChar (n % 10)]

/-- `str(n)` for a non-negative integer. -/
def natRepr (n : Nat) : String := ⟨natReprAux (n + 1) n⟩

/-- `str(i)` for a Python int. -/
def intRepr (i : Int) : String :=
  if i < 0 then "-" ++ natRepr i.natAbs else natRepr i.natAbs

/-- Abstract stand-in for CPython float `repr`; this development only
relies on it being non-empty. -/
def floatRepr (q : Rat) : String :=
  intRepr q.num ++ (if q.den = 1 then ".0" else "/" ++ natRepr q.den)

/-- `str(d)` for a `datetime.date`: zero-padded ISO form. -/
def PyDate.isoStr (dt : PyDate) : String :=
  (if dt.year < 1000 then (if dt.year < 100 then (if dt.year < 10 then "000" else "00") else "0") else "") ++
    natRepr dt.year ++ "-" ++
    (if dt.month < 10 then "0" else "") ++ natRepr dt.month ++ "-" ++
    (if dt.day < 10 then "0" else "") ++ natRepr dt.day

/-- Hex digit character. -/
def hexDigitChar (n : Nat) : Char :=
  if n < 10 then Char.ofNat (48 + n) else Char.ofNat (87 + n)

/-- Escape of one character inside a Python string `repr`. -/
def escChar (quote : Char) (c : Char) : String :=
  if c = Char.ofNat 92 then "\\\\"
  else if c = Char.ofNat 10 then "\\n"
  else if c = Char.ofNat 13 then "\\r"
  else if c = Char.ofNat 9 then "\\t"
  else if c = quote then "\\" ++ ⟨[c]⟩
  else if c.toNat < 32 || c.toNat == 127 then
    "\\x" ++ ⟨[hexDigitChar (c.toNat / 16), hexDigitChar (c.toNat % 16)]⟩
  else ⟨[c]⟩

/-- Python `repr` of a string: quote selection plus escaping. -/
def strRepr (s : String) : String :=
  let quote : Char :=
    if s.data.contains (Char.ofNat 39) && !(s.data.contains (Char.ofNat 34)) then
      Char.ofNat 34
    else Char.ofNat 39
  ⟨[quote]⟩ ++ String.join (s.data.map (escChar quote)) ++ ⟨[quote]⟩

mutual

/-- Python `repr` of an embedded value. -/
def pyRepr : JValue → String
  | .null => "None"
  | .bool true => "True"
  | .bool false => "False"
  | .int n => intRepr n
  | .float q => floatRepr q
  | .str s => strRepr s
  | .date dt =>
    "datetime.date(" ++ natRepr dt.year ++ ", " ++ natRepr dt.month ++ ", " ++
      natRepr dt.day ++ ")"
  | .arr xs => "[" ++ pyReprSeq xs ++ "]"
  | .obj kvs => "\x7b" ++ pyReprPairs kvs ++ "\x7d"

/-- Comma-separated `repr`s of a list's elements. -/
def pyReprSeq : List JValue → String
  | [] => ""
  | [x] => pyRepr x
  | x :: y :: rest => pyRepr x ++ ", " ++ pyReprSeq (y :: rest)

/-- Comma-separated `repr`s of a dict's items. -/
def pyReprPairs : List (String × JValue) → String
  | [] => ""
  | [kv] => strRepr kv.1 ++ ": " ++ pyRepr kv.2
  | kv :: p :: rest => strRepr kv.1 ++ ": " ++ pyRepr kv.2 ++ ", " ++ pyReprPairs (p :: rest)

end

/-- Python `str(v)`.  `str` of a string is itself, `str` of a
`datetime.date` is its ISO form, and everything else coincides with
`repr`. -/
def pyStr : JValue → String
  | .str s => s
  | .date dt => dt.isoStr
  | v => pyRepr v

/-- Python truthiness of an embedded value. -/
def pyTruthy : JValue → Bool
  | .null => false
  | .bool b => b
  | .int n => decide (n ≠ 0)
  | .float q => decide (q ≠ 0)
  | .str s => decide (s ≠ "")
  | .date _ => true
  | .arr xs => !xs.isEmpty
  | .obj kvs => !kvs.isEmpty

/-! ### Python numeric coercions -/

/-- Digit run accepted by Python `int(str)` after the optional sign:
digits with single underscores allowed between digits.  The Boolean
flag records whether the previous character was a digit. -/
def parseDigitsU : List Char → Bool → Nat → Option Nat
  | [], seenDigit, acc => if seenDigit then some acc else none
  | c :: rest, seenDigit, acc =>
    if c.isDigit then parseDigitsU rest true (10 * acc + (c.toNat - 48))
    else if c = Char.ofNat 95 then
      if seenDigit then parseDigitsU rest false acc else none
    else none

/-- Python `int(s)` for a string: strip whitespace, optional sign,
then an underscore-separated digit run. -/
def pyIntOfString (s : String) : Option Int :=
  match stripList s.data with
  | [] => none
  | c :: rest =>
    if c = Char.ofNat 43 then (parseDigitsU rest false 0).map Int.ofNat
    else if c = Char.ofNat 45 then (parseDigitsU rest false 0).map (fun n => -(n : Int))
    else (parseDigitsU (c :: rest) false 0).map Int.ofNat

/-- Truncation toward zero, as Python `int(float)`. -/
def ratTrunc (q : Rat) : Int := if q < 0 then -((-q).floor) else q.floor

/-- Python `int(v)`: `some` on success, `none` when `int()` raises
`ValueError`/`TypeError`. -/
def pyInt : JValue → Option Int
  | .bool b => some (if b then 1 else 0)
  | .int n => some n
  | .float q => some (ratTrunc q)
  | .str s => pyIntOfString s
  | _ => none

/-- Digit-list to number. -/
def digitsToNat (l : List Char) : Nat :=
  l.foldl (fun a c => 10 * a + (c.toNat - 48)) 0

/-- All characters are decimal digits. -/
def allDigitsL (l : List Char) : Bool := l.all (·.isDigit)

/-- Mantissa of a Python float literal: `digits[.digits]` with at
least one digit overall. -/
def parseMantissa (l : List Char) : Option Rat :=
  match l.splitOn (Char.ofNat 46) with
  | [ip] => if !ip.isEmpty && allDigitsL ip then some (digitsToNat ip : Rat) else none
  | [ip, fp] =>
    if (!ip.isEmpty || !fp.isEmpty) && allDigitsL ip && allDigitsL fp then
      some ((digitsToNat ip : Rat) + (digitsToNat fp : Rat) / ((10 : Rat) ^ fp.length))
    else none
  | _ => none

/-- Signed digit run of a float exponent. -/
def parseExp (l : List Char) : Option Int :=
  match l with
  | [] => none
  | c :: rest =>
    if c = Char.ofNat 43 then
      if !rest.isEmpty && allDigitsL rest then some (digitsToNat rest : Int) else none
    else if c = Char.ofNat 45 then
      if !rest.isEmpty && allDigitsL rest then some (-(digitsToNat rest : Int)) else none
    else if !l.isEmpty && allDigitsL l then some (digitsToNat l : Int) else none

/-- Python `float(s)` for a decimal string (the model omits
`inf`/`nan`, which cannot arise from the claims considered here). -/
def pyFloatOfString (s : String) : Option Rat :=
  match stripList s.data with
  | [] => none
  | l =>
    let sgnBody : Rat × List Char :=
      match l with
      | c :: rest =>
        if c = Char.ofNat 43 then (1, rest)
        else if c = Char.ofNat 45 then (-1, rest)
        else (1, l)
      | [] => (1, l)
    match sgnBody.2.splitOnP (fun c => c = Char.ofNat 101 || c = Char.ofNat 69) with
    | [mant] => (parseMantissa mant).map (sgnBody.1 * ·)
    | [mant, ex] =>
      match parseMantissa mant, parseExp ex with
      | some m, some e => some (sgnBody.1 * m * (10 : Rat) ^ e)
      | _, _ => none
    | _ => none

/-- Python `float(v)`. -/
def pyFloat : JValue → Option Rat
  | .bool b => some (if b then 1 else 0)
  | .int n => some (n : Rat)
  | .float q => some q
  | .str s => pyFloatOfString s
  | _ => none

/-! ### `datetime.strptime` for the three formats tried by the model -/

/-- Leap-year rule of the proleptic Gregorian calendar. -/
def isLeapYear (y : Nat) : Bool := y % 4 = 0 && (y % 100 ≠ 0 || y % 400 = 0)

/-- Days in a month. -/
def daysInMonth (y m : Nat) : Nat :=
  if m = 2 then (if isLeapYear y then 29 else 28)
  else if m = 4 || m = 6 || m = 9 || m = 11 then 30
  else 31

/-- Validity check performed by the `datetime.date` constructor. -/
def validDate (y m d : Nat) : Bool :=
  1 ≤ y && y ≤ 9999 && 1 ≤ m && m ≤ 12 && 1 ≤ d && d ≤ daysInMonth y m

/-- `datetime.strptime(s, "%Y<sep>%m<sep>%d")`: a four-digit year and
one-or-two-digit month/day joined by `sep`, forming a valid date. -/
def parseDateYMD (sep : Char) (s : String) : Option PyDate :=
  match s.data.splitOn sep with
  | [ys, ms, ds] =>
    if allDigitsL ys && ys.length = 4 && !ys.isEmpty &&
        allDigitsL ms && ms.length ≤ 2 && !ms.isEmpty &&
        allDigitsL ds && ds.length ≤ 2 && !ds.isEmpty then
      let y := digitsToNat ys
      let m := digitsToNat ms
      let d := digitsToNat ds
      if validDate y m d then some ⟨y, m, d⟩ else none
    else none
  | _ => none

/-- `datetime.strptime(s, "%m/%d/%Y")`. -/
def parseDateMDY (s : String) : Option PyDate :=
  match s.data.splitOn (Char.ofNat 47) with
  | [ms, ds, ys] =>
    if allDigitsL ys && ys.length = 4 && !ys.isEmpty &&
        allDigitsL ms && ms.length ≤ 2 && !ms.isEmpty &&
        allDigitsL ds && ds.length ≤ 2 && !ds.isEmpty then
      let y := digitsToNat ys
      let m := digitsToNat ms
      let d := digitsToNat ds
      if validDate y m d then some ⟨y, m, d⟩ else none
    else none
  | _ => none

/-- The ordered try/except chain of `handle_publication_date_field`:
ISO `YYYY-MM-DD` first, then `YYYY/MM/DD`, then `MM/DD/YYYY`. -/
def tryDateFormats (t : String) : Option PyDate :=
  match parseDateYMD (Char.ofNat 45) t with
  | some d => some d
  | none =>
    match parseDateYMD (Char.ofNat 47) t with
    | some d => some d
    | none => parseDateMDY t

/-- A validated `publication_date`: either a structured date or a
string kept for manual review. -/
abbrev PubVal := Sum PyDate String

/-- Rendering used by `get_all_metadata` (`str(self.publication_date)`). -/
def pubValStr : PubVal → String
  | .inl dt => dt.isoStr
  | .inr s => s

/-! ### Field validators of `Book` (`@field_validator(..., mode="before")`) -/

/-- `Book.handle_string_fields`: `None`/empty/whitespace-only becomes
`None`; other strings are stripped with inner whitespace runs
collapsed; non-string values are stringified. -/
def handle_string_fields : JValue → Option String
  | .null => none
  | .str s =>
    if s = "" then none
    else if pyStripS s = "" then none
    else
      let normalized := collapseWsS (pyStripS s)
      if normalized = "" then none else some normalized
  | v => some (pyStr v)

/-- Split at every comma or semicolon (`re.split(r"[,;]", v)`). -/
def splitCommaSemi (l : List Char) : List (List Char) :=
  l.splitOnP (fun c => c = Char.ofNat 44 || c = Char.ofNat 59)

/-- `Book.handle_authors_field`: a string splits on `,`/`;` with
pieces stripped and empties dropped; a list has elements stringified,
stripped, empties dropped; other scalars become a singleton (or
nothing if they stringify to whitespace). -/
def handle_authors_field : JValue → List String
  | .null => []
  | .str s =>
    ((splitCommaSemi s.data).map (fun piece => (⟨stripList piece⟩ : String))).filter
      (fun a => a ≠ "")
  | .arr xs =>
    (xs.map (fun x => pyStripS (pyStr x))).filter (fun a => a ≠ "")
  | v =>
    if pyStripS (pyStr v) = "" then [] else [pyStripS (pyStr v)]

/-- The test `v is None or v == ""` shared by the numeric validators
(only the empty string compares equal to `""` in Python). -/
def isNullOrEmptyStr : JValue → Bool
  | .null => true
  | .str "" => true
  | _ => false

/-- `Book.handle_pages_field`; the Boolean records whether the
`except` branch logged a warning. -/
def handle_pages_field (v : JValue) : Option Int × Bool :=
  if isNullOrEmptyStr v then (none, false)
  else
    match pyInt v with
    | some pages => (if pages > 0 then some pages else none, false)
    | none => (none, true)

/-- `Book.handle_price_field`; the Boolean records whether the
`except` branch logged a warning. -/
def handle_price_field (v : JValue) : Option Rat × Bool :=
  if isNullOrEmptyStr v then (none, false)
  else
    match pyFloat v with
    | some price => (if 0 ≤ price then some price else none, false)
    | none => (none, true)

/-- `Book.handle_publication_date_field`; the Boolean records whether
the store-as-string fallback logged a warning. -/
def handle_publication_date_field : JValue → Option PubVal × Bool
  | .null => (none, false)
  | .date dt => (some (.inl dt), false)
  | .str s =>
    if s = "" then (none, false)
    else
      let t := pyStripS s
      match tryDateFormats t with
      | some dt => (some (.inl dt), false)
      | none => (some (.inr t), true)
  | v => (some (.inr (pyStr v)), false)

/-- Inputs taking the final `return str(v)` arm of
`handle_publication_date_field` (neither null, string, nor date). -/
def isOtherDateInput : JValue → Bool
  | .null => false
  | .str _ => false
  | .date _ => false
  | _ => true

/-! ### The `Book` model -/

/-- The fields explicitly handled by the model
(`core_fields` in `Book.extract_metadata`). -/
def core_fields : List String :=
  ["name", "title", "authors", "isbn", "publication_date", "pages", "price",
   "description", "cover_image_url", "purchase_url", "publisher", "genre",
   "language", "format"]

/-- `Book.extract_metadata` on a dict: move every non-core key into
`raw_metadata`, then reconcile `title`/`name` (a truthy `title` becomes
`name`; otherwise a missing or falsy `name` becomes "Untitled Book"). -/
def extract_metadata_dict (d : Dict) : Dict :=
  let raw_metadata := d.filter (fun kv => !(core_fields.contains kv.1))
  let processed := Dict.set d "raw_metadata" (.obj raw_metadata)
  if (match processed.get "title" with | some t => pyTruthy t | none => false) then
    Dict.set processed "name" ((processed.get "title").getD .null)
  else if (match processed.get "name" with | some nv => !(pyTruthy nv) | none => true) then
    Dict.set processed "name" (.str "Untitled Book")
  else processed

/-- `Book.extract_metadata` (`@model_validator(mode="before")`):
non-dict input is returned unchanged (and later fails model
validation). -/
def extract_metadata : JValue → JValue
  | .obj d => .obj (extract_metadata_dict d)
  | v => v

/-- The typed `Book` record produced by a successful validation. -/
structure Book where
  name : String
  title : Option String
  authors : List String
  isbn : Option String
  publication_date : Option PubVal
  pages : Option Int
  price : Option Rat
  description : Option String
  cover_image_url : Option String
  purchase_url : Option String
  publisher : Option String
  genre : Option String
  language : Option String
  format : Option String
  raw_metadata : Dict

/-- Validation of the `name` field: the default applies when the key
is absent; otherwise the before-validator runs and its `None` output
fails the non-optional `name : str` annotation. -/
def nameValue (p : Dict) : Option String :=
  match p.get "name" with
  | none => some "Untitled Book"
  | some nv => handle_string_fields nv

/-- Validation of an optional string field: absent keys default to
`None`; present values run through `handle_string_fields`. -/
def optStrField (p : Dict) (k : String) : Option String :=
  (p.get k).bind handle_string_fields

/-- The field-by-field validation of the processed dict, given the
already-validated `name` and `raw_metadata` fields. -/
def Book.fromProcessed (p : Dict) (nm : String) (rm : Dict) : Book :=
  { name := nm
    title := optStrField p "title"
    authors :=
      match Dict.get p "authors" with
      | none => []
      | some av => handle_authors_field av
    isbn := optStrField p "isbn"
    publication_date :=
      match Dict.get p "publication_date" with
      | none => none
      | some dv => (handle_publication_date_field dv).1
    pages :=
      match Dict.get p "pages" with
      | none => none
      | some pv => (handle_pages_field pv).1
    price :=
      match Dict.get p "price" with
      | none => none
      | some pv => (handle_price_field pv).1
    description := optStrField p "description"
    cover_image_url := optStrField p "cover_image_url"
    purchase_url := optStrField p "purchase_url"
    publisher := optStrField p "publisher"
    genre := optStrField p "genre"
    language := optStrField p "language"
    format := optStrField p "format"
    raw_metadata := rm }

/-- Pydantic validation of `Book` against an embedded value: the
before model-validator runs first; a non-dict result fails; then each
field validator runs independently.  Only the non-optional `name : str`
field can reject its validator's output (`None`), which is the single
per-field way validation of a mapping can fail. -/
def Book.construct (v : JValue) : Option Book :=
  match extract_metadata v with
  | .obj p =>
    match nameValue p with
    | none => none
    | some nm =>
      match Dict.get p "raw_metadata" with
      | some (.obj rm) => some (Book.fromProcessed p nm rm)
      | _ => none
  | _ => none

/-- One optional entry of the metadata mapping. -/
def optEntry (k : String) : Option JValue → Dict
  | some v => [(k, v)]
  | none => []

/-- `Book.get_all_metadata`: every non-null descriptive core field
(authors only when non-empty, dates via `str`), then
`metadata.update(self.raw_metadata)`. -/
def Book.get_all_metadata (b : Book) : Dict :=
  let metadata : Dict :=
    optEntry "title" (b.title.map .str) ++
    (if b.authors = [] then [] else [("authors", .arr (b.authors.map .str))]) ++
    optEntry "isbn" (b.isbn.map .str) ++
    optEntry "publication_date" (b.publication_date.map (fun pv => .str (pubValStr pv))) ++
    optEntry "pages" (b.pages.map .int) ++
    optEntry "price" (b.price.map .float) ++
    optEntry "description" (b.description.map .str) ++
    optEntry "cover_image_url" (b.cover_image_url.map .str) ++
    optEntry "purchase_url" (b.purchase_url.map .str)
  Dict.updateWith metadata b.raw_metadata

/-! ### The `BookCollection` model -/

/-- Pydantic validation of `list[Book]`: every element must validate;
one failure fails the whole list. -/
def validateBooks : List JValue → Option (List Book)
  | [] => some []
  | x :: xs =>
    match Book.construct x, validateBooks xs with
    | some b, some bs => some (b :: bs)
    | _, _ => none

/-- The `BookCollection` model: the root of the book JSON dictionary. -/
structure BookCollection where
  books : List Book

/-- Pydantic validation of `BookCollection`: requires a mapping whose
`"books"` key holds an array, each element validating as a `Book`. -/
def BookCollection.construct (v : JValue) : Option BookCollection :=
  match v with
  | .obj d =>
    match Dict.get d "books" with
    | some (.arr xs) => (validateBooks xs).map BookCollection.mk
    | _ => none
  | _ => none

/-- `BookCollection.get_entities`. -/
def BookCollection.get_entities (c : BookCollection) : List Book := c.books

/-! ### `EntityTypeRegistry.detect_collection_class` -/

/-- A registered detection rule: a predicate over the raw top-level
dict (returning `none` when the predicate raises) together with its
collection class.  `α` stands for the registered collection class. -/
abbrev DetectionRule (α : Type) := (Dict → Option Bool) × α

/-- `EntityTypeRegistry.detect_collection_class`: try the rules in
registration order; a raising predicate is logged and skipped; the
first rule whose predicate returns `True` wins; otherwise `None`. -/
def detect_collection_class {α : Type} : List (DetectionRule α) → Dict → Option α
  | [], _ => none
  | rule :: rest, raw =>
    match rule.1 raw with
    | some true => some rule.2
    | _ => detect_collection_class rest raw

/-- `_detect_book_format`: the raw data has a `"books"` key holding a
list. -/
def detect_book_format (raw : Dict) : Bool :=
  raw.hasKey "books" &&
    (match raw.get "books" with | some (.arr _) => true | _ => false)

/-! ### Predicates and sample data used by the statements below -/

/-- The string has no leading and no trailing whitespace. -/
def noEdgeWs (s : String) : Bool :=
  s.data.head?.all (fun c => !isPyWs c) && s.data.getLast?.all (fun c => !isPyWs c)

/-- Every whitespace character of the string is a plain space. -/
def wsAllSpace (s : String) : Bool :=
  s.data.all (fun c => !isPyWs c || c == ' ')

/-- No two consecutive whitespace characters. -/
def noAdjacentWs : List Char → Bool
  | [] => true
  | [_] => true
  | a :: b :: rest => !(isPyWs a && isPyWs b) && noAdjacentWs (b :: rest)

/-- The `title` key is present and truthy (the guard of the first
reconciliation branch of `extract_metadata`). -/
def titleTruthy (d : Dict) : Bool :=
  match d.get "title" with
  | some t => pyTruthy t
  | none => false

/-- The raw value that `extract_metadata` leaves under the `name` key,
when that is not the "Untitled Book" sentinel: the `title` value if
truthy, else a truthy supplied `name`, else `none` (sentinel case). -/
def nameSource (d : Dict) : Option JValue :=
  if titleTruthy d then d.get "title"
  else
    match d.get "name" with
    | some nv => if pyTruthy nv then some nv else none
    | none => none

/-- Sample raw record with one overflow key. -/
def sampleRecord1 : Dict := [("rating", .int 5)]

/-- The book built from `sampleRecord1`. -/
def sampleBook1 : Book :=
  { name := "Untitled Book", title := none, authors := [], isbn := none
    publication_date := none, pages := none, price := none, description := none
    cover_image_url := none, purchase_url := none, publisher := none
    genre := none, language := none, format := none
    raw_metadata := [("rating", .int 5)] }

/-- Sample raw record with a navigation field and an overflow key. -/
def sampleRecord2 : Dict := [("publisher", .str "P"), ("rating", .int 5)]

/-- The book built from `sampleRecord2`. -/
def sampleBook2 : Book :=
  { name := "Untitled Book", title := none, authors := [], isbn := none
    publication_date := none, pages := none, price := none, description := none
    cover_image_url := none, purchase_url := none, publisher := some "P"
    genre := none, language := none, format := none
    raw_metadata := [("rating", .int 5)] }

/-- Sample raw record whose `title` needs whitespace normalization. -/
def sampleRecord3 : Dict := [("title", .str " a  b ")]

/-- The book built from `sampleRecord3`. -/
def sampleBook3 : Book :=
  { name := "a b", title := some "a b", authors := [], isbn := none
    publication_date := none, pages := none, price := none, description := none
    cover_image_url := none, purchase_url := none, publisher := none
    genre := none, language := none, format := none
    raw_metadata := [] }

/-! ### Dictionary lemmas -/

theorem Dict.get_set_self (d : Dict) (k : String) (v : JValue) :
    (Dict.set d k v).get k = some v := by
  induction d with
  | nil => simp [Dict.set, Dict.get]
  | cons kv rest ih =>
    by_cases hk : kv.1 = k
    · simp [Dict.set, hk, Dict.get]
    · simp [Dict.set, hk, Dict.get, ih]

theorem Dict.get_set_ne (d : Dict) (k k' : String) (v : JValue) (h : k ≠ k') :
    (Dict.set d k v).get k' = d.get k' := by
  induction d with
  | nil => simp [Dict.set, Dict.get, h]
  | cons kv rest ih =>
    by_cases hk : kv.1 = k
    · simp [Dict.set, hk, Dict.get, h, hk.symm ▸ h]
    · simp [Dict.set, hk, Dict.get, ih]

theorem Dict.hasKey_eq_isSome (d : Dict) (k : String) :
    d.hasKey k = (d.get k).isSome := by
  induction d with
  | nil => simp [Dict.hasKey, Dict.get]
  | cons kv rest ih =>
    by_cases hk : kv.1 = k
    · simp [Dict.hasKey, hk, Dict.get]
    · simp [Dict.hasKey, hk, Dict.get, ih]

theorem Dict.get_eq_none_of_hasKey_false (d : Dict) (k : String)
    (h : d.hasKey k = false) : d.get k = none := by
  rw [Dict.hasKey_eq_isSome] at h
  cases hg : d.get k with
  | none => rfl
  | some v => rw [hg] at h; simp at h

theorem Dict.hasKey_iff_mem_keys (d : Dict) (k : String) :
    d.hasKey k = true ↔ k ∈ d.keys := by
  induction d with
  | nil => simp [Dict.hasKey, Dict.keys]
  | cons kv rest ih =>
    by_cases hk : kv.1 = k
    · simp [Dict.hasKey, hk, Dict.keys]
    · rw [Dict.hasKey, if_neg hk, Dict.keys, List.map_cons, List.mem_cons]
      rw [Dict.keys] at ih
      rw [ih]
      constructor
      · exact Or.inr
      · rintro (h | h)
        · exact absurd h.symm hk
        · exact h

theorem Dict.get_filterKeys (p : String → Bool) (d : Dict) (k : String)
    (h : p k = true) : Dict.get (List.filter (fun kv => p kv.1) d) k = d.get k := by
  induction d with
  | nil => simp [Dict.get]
  | cons kv rest ih =>
    rw [List.filter_cons]
    by_cases hk : kv.1 = k
    · rw [hk]
      simp only [h]
      simp [Dict.get, ih]
    · cases hp : p kv.1 with
      | true => simp [Dict.get, hk, ih]
      | false => simp [Dict.get, hk, ih]

theorem Dict.hasKey_filterKeys_false (p : String → Bool) (d : Dict) (k : String)
    (h : p k = false) : Dict.hasKey (List.filter (fun kv => p kv.1) d) k = false := by
  induction d with
  | nil => simp [Dict.hasKey]
  | cons kv rest ih =>
    rw [List.filter_cons]
    cases hp : p kv.1 with
    | true =>
      have hk : kv.1 ≠ k := fun heq => by rw [heq, h] at hp; exact Bool.noConfusion hp
      simp [Dict.hasKey, hk, ih]
    | false => exact ih

theorem Dict.hasKey_filterKeys_true (p : String → Bool) (d : Dict) (k : String)
    (hd : d.hasKey k = true) (h : p k = true) :
    Dict.hasKey (List.filter (fun kv => p kv.1) d) k = true := by
  induction d with
  | nil => simp [Dict.hasKey] at hd
  | cons kv rest ih =>
    rw [List.filter_cons]
    by_cases hk : kv.1 = k
    · rw [hk]
      simp only [h]
      simp [Dict.hasKey, hk]
    · rw [Dict.hasKey, if_neg hk] at hd
      cases hp : p kv.1 with
      | true => simp [Dict.hasKey, hk, ih hd]
      | false => exact ih hd

theorem Dict.updateWith_cons (d : Dict) (kv : String × JValue) (r : Dict) :
    Dict.updateWith d (kv :: r) = Dict.updateWith (Dict.set d kv.1 kv.2) r := rfl

theorem Dict.get_updateWith_of_hasKey_false (d r : Dict) (k : String)
    (h : r.hasKey k = false) : (Dict.updateWith d r).get k = d.get k := by
  induction r generalizing d with
  | nil => rfl
  | cons kv rest ih =>
    rw [Dict.hasKey] at h
    by_cases hk : kv.1 = k
    · rw [if_pos hk] at h; exact Bool.noConfusion h
    · rw [if_neg hk] at h
      rw [Dict.updateWith_cons, ih _ h, Dict.get_set_ne _ _ _ _ hk]

theorem Dict.get_updateWith_of_get (d r : Dict) (k : String) (v : JValue)
    (hnd : r.nodupKeys) (h : r.get k = some v) :
    (Dict.updateWith d r).get k = some v := by
  induction r generalizing d with
  | nil => simp [Dict.get] at h
  | cons kv rest ih =>
    rw [Dict.nodupKeys, Dict.keys, List.map_cons, List.nodup_cons] at hnd
    rw [Dict.get] at h
    by_cases hk : kv.1 = k
    · rw [if_pos hk] at h
      have hrest : Dict.hasKey rest k = false := by
        cases hh : Dict.hasKey rest k with
        | false => rfl
        | true =>
          exact absurd (hk ▸ (Dict.hasKey_iff_mem_keys rest k).mp hh) hnd.1
      rw [Dict.updateWith_cons, Dict.get_updateWith_of_hasKey_false _ _ _ hrest, hk,
        Dict.get_set_self]
      exact h
    · rw [if_neg hk] at h
      rw [Dict.updateWith_cons]
      exact ih _ hnd.2 h

theorem Dict.get_append (d1 d2 : Dict) (k : String) :
    Dict.get (d1 ++ d2) k = match d1.get k with | some v => some v | none => d2.get k := by
  induction d1 with
  | nil => simp [Dict.get]
  | cons kv rest ih =>
    by_cases hk : kv.1 = k
    · simp [Dict.get, hk]
    · simp [Dict.get, hk, ih]

theorem optEntry_get (k k' : String) (ov : Option JValue) :
    (optEntry k ov).get k' = if k = k' then ov else none := by
  cases ov with
  | none => simp [optEntry, Dict.get]
  | some v =>
    by_cases hk : k = k'
    · simp [optEntry, Dict.get, hk]
    · simp [optEntry, Dict.get, hk]

/-! ### Characterization of `extract_metadata` and `Book.construct` -/

theorem extract_metadata_get_raw (d : Dict) :
    Dict.get (extract_metadata_dict d) "raw_metadata" =
      some (.obj (List.filter (fun kv => !(core_fields.contains kv.1)) d)) := by
  simp only [extract_metadata_dict]
  split
  · rw [Dict.get_set_ne _ _ _ _ (by decide), Dict.get_set_self]
  · split
    · rw [Dict.get_set_ne _ _ _ _ (by decide), Dict.get_set_self]
    · rw [Dict.get_set_self]

theorem extract_metadata_get_name (d : Dict) :
    Dict.get (extract_metadata_dict d) "name" =
      some ((nameSource d).getD (.str "Untitled Book")) := by
  simp only [extract_metadata_dict]
  rw [show Dict.get (Dict.set d "raw_metadata"
      (JValue.obj (List.filter (fun kv => !(core_fields.contains kv.1)) d))) "title" =
      Dict.get d "title" from Dict.get_set_ne _ _ _ _ (by decide)]
  rw [show Dict.get (Dict.set d "raw_metadata"
      (JValue.obj (List.filter (fun kv => !(core_fields.contains kv.1)) d))) "name" =
      Dict.get d "name" from Dict.get_set_ne _ _ _ _ (by decide)]
  unfold nameSource titleTruthy
  cases ht : Dict.get d "title" with
  | none =>
    simp only [ht]
    cases hn : Dict.get d "name" with
    | none => simp [Dict.get_set_self]
    | some nv =>
      cases hnt : pyTruthy nv with
      | true =>
        simp only [hnt]
        simp [hn, Dict.get_set_ne _ _ _ _ (by decide : ("raw_metadata" : String) ≠ "name")]
      | false => simp only [hnt]; simp [Dict.get_set_self]
  | some t =>
    cases htt : pyTruthy t with
    | true => simp only [ht, htt]; simp [Dict.get_set_self]
    | false =>
      simp only [ht, htt]
      cases hn : Dict.get d "name" with
      | none => simp [Dict.get_set_self]
      | some nv =>
        cases hnt : pyTruthy nv with
        | true =>
          simp only [hnt]
          simp [hn, Dict.get_set_ne _ _ _ _ (by decide : ("raw_metadata" : String) ≠ "name")]
        | false => simp only [hnt]; simp [Dict.get_set_self]

theorem extract_metadata_get_other (d : Dict) (k : String)
    (h1 : k ≠ "name") (h2 : k ≠ "raw_metadata") :
    Dict.get (extract_metadata_dict d) k = Dict.get d k := by
  simp only [extract_metadata_dict]
  split
  · rw [Dict.get_set_ne _ _ _ _ (Ne.symm h1), Dict.get_set_ne _ _ _ _ (Ne.symm h2)]
  · split
    · rw [Dict.get_set_ne _ _ _ _ (Ne.symm h1), Dict.get_set_ne _ _ _ _ (Ne.symm h2)]
    · rw [Dict.get_set_ne _ _ _ _ (Ne.symm h2)]

theorem Book.construct_obj (d : Dict) :
    Book.construct (.obj d) =
      (nameValue (extract_metadata_dict d)).map
        (fun nm => Book.fromProcessed (extract_metadata_dict d) nm
          (List.filter (fun kv => !(core_fields.contains kv.1)) d)) := by
  show (match extract_metadata (.obj d) with
    | .obj p =>
      match nameValue p with
      | none => none
      | some nm =>
        match Dict.get p "raw_metadata" with
        | some (.obj rm) => some (Book.fromProcessed p nm rm)
        | _ => none
    | _ => none) = _
  rw [show extract_metadata (.obj d) = .obj (extract_metadata_dict d) from rfl]
  cases hn : nameValue (extract_metadata_dict d) with
  | none => simp [hn]
  | some nm => simp [hn, extract_metadata_get_raw]

/-! ### Claim theorems -/

/-- C1: for every mapping `R` from which a `Book` is successfully
constructed, every non-core key of `R` appears in `raw_metadata` with
its value unchanged, every key of `R` is a core-field name or a key of
`raw_metadata`, and no core-field name is a key of `raw_metadata`. -/
theorem book_overflow_partition (d : Dict) (b : Book)
    (h : Book.construct (.obj d) = some b) :
    (∀ k, d.hasKey k = true → core_fields.contains k = false →
      b.raw_metadata.get k = d.get k ∧ b.raw_metadata.hasKey k = true) ∧
    (∀ k, d.hasKey k = true →
      core_fields.contains k = true ∨ b.raw_metadata.hasKey k = true) ∧
    (∀ k, core_fields.contains k = true → b.raw_metadata.hasKey k = false) := by
  rw [Book.construct_obj] at h
  cases hn : nameValue (extract_metadata_dict d) with
  | none => rw [hn] at h; exact absurd h (by simp)
  | some nm =>
    rw [hn] at h
    simp only [Option.map_some'] at h
    have hrm : b.raw_metadata = List.filter (fun kv => !(core_fields.contains kv.1)) d := by
      rw [← Option.some.inj h]
      rfl
    refine ⟨?_, ?_, ?_⟩
    · intro k hk hcore
      rw [hrm]
      constructor
      · exact Dict.get_filterKeys (fun s => !(core_fields.contains s)) d k (by simpa using hcore)
      · exact Dict.hasKey_filterKeys_true (fun s => !(core_fields.contains s)) d k hk
          (by simpa using hcore)
    · intro k hk
      cases hcore : core_fields.contains k with
      | true => exact Or.inl rfl
      | false =>
        refine Or.inr ?_
        rw [hrm]
        exact Dict.hasKey_filterKeys_true (fun s => !(core_fields.contains s)) d k hk
          (by simpa using hcore)
    · intro k hcore
      rw [hrm]
      exact Dict.hasKey_filterKeys_false (fun s => !(core_fields.contains s)) d k
        (by simpa using hcore)

/-- Witness for C1 at a concrete record with one overflow key. -/
theorem book_overflow_partition_witness :
    (∀ k, sampleRecord1.hasKey k = true → core_fields.contains k = false →
      sampleBook1.raw_metadata.get k = sampleRecord1.get k ∧
        sampleBook1.raw_metadata.hasKey k = true) ∧
    (∀ k, sampleRecord1.hasKey k = true →
      core_fields.contains k = true ∨ sampleBook1.raw_metadata.hasKey k = true) ∧
    (∀ k, core_fields.contains k = true → sampleBook1.raw_metadata.hasKey k = false) :=
  book_overflow_partition sampleRecord1 sampleBook1 rfl

/-- C5: `detect_collection_class` evaluates predicates in registration
order, skipping raising predicates; the first rule whose predicate
returns true wins (so of two matching rules the earlier one is
returned); and with no matching rule the result is the explicit
no-match value `none`, never some default. -/
theorem detect_collection_class_spec {α : Type} (rules : List (DetectionRule α))
    (raw : Dict) :
    (∀ c, detect_collection_class rules raw = some c ↔
      ∃ i, ∃ h : i < rules.length,
        (rules.get ⟨i, h⟩).1 raw = some true ∧ c = (rules.get ⟨i, h⟩).2 ∧
          ∀ r ∈ rules.take i, r.1 raw ≠ some true) ∧
    (detect_collection_class rules raw = none ↔
      ∀ r ∈ rules, r.1 raw ≠ some true) := by
  induction rules with
  | nil =>
    constructor
    · intro c
      simp [detect_collection_class]
    · simp [detect_collection_class]
  | cons rule rest ih =>
    by_cases hr : rule.1 raw = some true
    · have hdet : detect_collection_class (rule :: rest) raw = some rule.2 := by
        rw [detect_collection_class, hr]
      constructor
      · intro c
        rw [hdet]
        constructor
        · intro hc
          exact ⟨0, Nat.succ_pos _, hr, (Option.some.inj hc).symm, by simp⟩
        · rintro ⟨i, h, htrue, hc, hprev⟩
          cases i with
          | zero => rw [hc]; rfl
          | succ i' =>
            exact absurd hr (hprev rule (by simp [List.take_succ_cons]))
      · rw [hdet]
        constructor
        · intro hc
          exact absurd hc (by simp)
        · intro hall
          exact absurd hr (hall rule (List.mem_cons_self _ _))
    · have hdet : detect_collection_class (rule :: rest) raw =
          detect_collection_class rest raw := by
        rw [detect_collection_class]
        cases hv : rule.1 raw with
        | none => rfl
        | some bv =>
          cases bv with
          | true => exact absurd hv hr
          | false => rfl
      constructor
      · intro c
        rw [hdet, (ih.1 c)]
        constructor
        · rintro ⟨i, h, htrue, hc, hprev⟩
          refine ⟨i + 1, Nat.succ_lt_succ h, ?_, ?_, ?_⟩
          · simpa using htrue
          · simpa using hc
          · intro r hrmem
            rw [List.take_succ_cons] at hrmem
            rcases List.mem_cons.mp hrmem with hrr | hrr
            · rw [hrr]; exact hr
            · exact hprev r hrr
        · rintro ⟨i, h, htrue, hc, hprev⟩
          cases i with
          | zero =>
            exact absurd (by simpa using htrue) hr
          | succ i' =>
            refine ⟨i', Nat.lt_of_succ_lt_succ h, by simpa using htrue,
              by simpa using hc, ?_⟩
            intro r hrmem
            exact hprev r (by rw [List.take_succ_cons]; exact List.mem_cons_of_mem _ hrmem)
      · rw [hdet, ih.2]
        constructor
        · intro hall r hrmem
          rcases List.mem_cons.mp hrmem with hrr | hrr
          · rw [hrr]; exact hr
          · exact hall r hrr
        · intro hall r hrmem
          exact hall r (List.mem_cons_of_mem _ hrmem)

/-- Witness for C5: a raising rule is skipped, an earlier matching
rule beats a later one, and no matching rule yields `none`. -/
theorem detect_collection_class_witness :
    detect_collection_class
      [((fun _ => none), (0 : Nat)), ((fun _ => some true), 1),
        ((fun _ => some true), 2)] [] = some 1 ∧
    detect_collection_class [((fun _ => some false), (7 : Nat))] [] = none :=
  ⟨((detect_collection_class_spec _ []).1 1).mpr
      ⟨1, by decide, rfl, rfl, by
        intro r hrmem
        simp at hrmem
        rw [hrmem]
        simp⟩,
    (detect_collection_class_spec _ []).2.mpr (by
      intro r hrmem
      simp at hrmem
      rw [hrmem]
      simp)⟩

theorem validateBooks_eq_none_of_mem (xs : List JValue) (x : JValue)
    (hmem : x ∈ xs) (hx : Book.construct x = none) :
    validateBooks xs = none := by
  induction xs with
  | nil => simp at hmem
  | cons y ys ih =>
    rcases List.mem_cons.mp hmem with hxy | hxy
    · rw [validateBooks, ← hxy, hx]
    · rw [validateBooks, ih hxy]
      cases Book.construct y <;> rfl

theorem validateBooks_length (xs : List JValue) (bs : List Book)
    (h : validateBooks xs = some bs) : bs.length = xs.length := by
  induction xs generalizing bs with
  | nil =>
    rw [validateBooks] at h
    rw [← Option.some.inj h]
    rfl
  | cons y ys ih =>
    rw [validateBooks] at h
    cases hy : Book.construct y with
    | none => rw [hy] at h; exact absurd h (by simp)
    | some b =>
      rw [hy] at h
      cases hys : validateBooks ys with
      | none => rw [hys] at h; exact absurd h (by simp)
      | some bs' =>
        rw [hys] at h
        rw [← Option.some.inj h]
        simp [ih bs' hys]

theorem validateBooks_get (xs : List JValue) (bs : List Book)
    (h : validateBooks xs = some bs) (i : Nat) (hi : i < xs.length)
    (hi' : i < bs.length) :
    Book.construct (xs.get ⟨i, hi⟩) = some (bs.get ⟨i, hi'⟩) := by
  induction xs generalizing bs i with
  | nil => exact absurd hi (by simp)
  | cons y ys ih =>
    rw [validateBooks] at h
    cases hy : Book.construct y with
    | none => rw [hy] at h; exact absurd h (by simp)
    | some b =>
      rw [hy] at h
      cases hys : validateBooks ys with
      | none => rw [hys] at h; exact absurd h (by simp)
      | some bs' =>
        rw [hys] at h
        obtain rfl := (Option.some.inj h).symm
        cases i with
        | zero => simpa using hy
        | succ i' =>
          have hlen := validateBooks_length ys bs' hys
          have hi2 : i' < ys.length := by simpa using hi
          have hi'' : i' < bs'.length := by omega
          simpa using ih bs' hys i' hi2 hi'' 

/-- C6: `BookCollection` parsing is all-or-nothing — it fails when the
`"books"` key is absent, when its value is not an array, or when any
element fails `Book` construction (producing no partial collection);
on success `get_entities` returns the per-element constructions in
input order. -/
theorem bookcollection_parse_spec (d : Dict) :
    (d.hasKey "books" = false → BookCollection.construct (.obj d) = none) ∧
    (∀ v, Dict.get d "books" = some v → (∀ xs, v ≠ .arr xs) →
      BookCollection.construct (.obj d) = none) ∧
    (∀ xs x, Dict.get d "books" = some (.arr xs) → x ∈ xs →
      Book.construct x = none → BookCollection.construct (.obj d) = none) ∧
    (∀ xs bs, Dict.get d "books" = some (.arr xs) → validateBooks xs = some bs →
      BookCollection.construct (.obj d) = some ⟨bs⟩ ∧
      (BookCollection.mk bs).get_entities = bs ∧
      bs.length = xs.length ∧
      ∀ i (hi : i < xs.length) (hi' : i < bs.length),
        Book.construct (xs.get ⟨i, hi⟩) = some (bs.get ⟨i, hi'⟩)) := by
  refine ⟨?_, ?_, ?_, ?_⟩
  · intro h
    rw [BookCollection.construct]
    rw [Dict.get_eq_none_of_hasKey_false d _ h]
  · intro v hv hnotarr
    rw [BookCollection.construct, hv]
    cases v with
    | arr xs => exact absurd rfl (hnotarr xs)
    | null => rfl
    | bool b => rfl
    | int n => rfl
    | float q => rfl
    | str s => rfl
    | date dt => rfl
    | obj kvs => rfl
  · intro xs x hv hmem hx
    rw [BookCollection.construct]
    simp only [hv]
    rw [validateBooks_eq_none_of_mem xs x hmem hx]
    rfl
  · intro xs bs hv hbs
    refine ⟨?_, rfl, validateBooks_length xs bs hbs, validateBooks_get xs bs hbs⟩
    rw [BookCollection.construct]
    simp only [hv]
    rw [hbs]
    rfl

/-- Witness for C6: Scenario D (an element that is not an object)
fails the whole parse, and a missing `"books"` key fails it too. -/
theorem bookcollection_parse_witness :
    BookCollection.construct (.obj [("books", .arr [.str "not-an-object"])]) = none ∧
    BookCollection.construct (.obj sampleRecord1) = none :=
  ⟨(bookcollection_parse_spec _).2.2.1 [.str "not-an-object"] (.str "not-an-object")
      rfl (List.mem_singleton_self _) rfl,
    (bookcollection_parse_spec sampleRecord1).1 rfl⟩

/-- C7: pages normalization — null/empty inputs give null without a
diagnostic; failed numeric coercion gives null with a diagnostic;
coerced values at most zero give null; positive coerced values are
kept; in particular "0", "-5", "abc" give null and "310" gives 310. -/
theorem handle_pages_field_spec :
    handle_pages_field .null = (none, false) ∧
    handle_pages_field (.str "") = (none, false) ∧
    (∀ v, isNullOrEmptyStr v = false → pyInt v = none →
      handle_pages_field v = (none, true)) ∧
    (∀ v n, isNullOrEmptyStr v = false → pyInt v = some n → n ≤ 0 →
      handle_pages_field v = (none, false)) ∧
    (∀ v n, isNullOrEmptyStr v = false → pyInt v = some n → 0 < n →
      handle_pages_field v = (some n, false)) ∧
    handle_pages_field (.str "0") = (none, false) ∧
    handle_pages_field (.str "-5") = (none, false) ∧
    handle_pages_field (.str "abc") = (none, true) ∧
    handle_pages_field (.str "310") = (some 310, false) := by
  refine ⟨rfl, rfl, ?_, ?_, ?_, by decide, by decide, by decide, by decide⟩
  · intro v hne hint
    rw [handle_pages_field, hne, hint]
    rfl
  · intro v n hne hint hle
    rw [handle_pages_field, hne, hint]
    simp [Int.not_lt.mpr hle]
  · intro v n hne hint hlt
    rw [handle_pages_field, hne, hint]
    simp [hlt]

/-- Witness for C7: the universally quantified coercion clauses applied
at concrete inputs (a numeric string, a non-coercible list, and a
negative integer). -/
theorem handle_pages_field_witness :
    handle_pages_field (.str "7") = (some 7, false) ∧
    handle_pages_field (.arr []) = (none, true) ∧
    handle_pages_field (.int (-4)) = (none, false) :=
  ⟨handle_pages_field_spec.2.2.2.2.1 (.str "7") 7 rfl (by decide) (by decide),
    handle_pages_field_spec.2.2.1 (.arr []) rfl rfl,
    handle_pages_field_spec.2.2.2.1 (.int (-4)) (-4) rfl rfl (by decide)⟩

/-- C2 (code-bug evidence): a mapping whose effective `name` value is
a truthy whitespace-only string makes `Book` construction fail, because
`handle_string_fields` returns `None` for the non-optional `name : str`
field — contradicting the documented rule that only non-mappings fail. -/
theorem construct_fails_on_whitespace_name :
    Book.construct (.obj [("name", .str " ")]) = none ∧
    Book.construct (.obj [("title", .str " ")]) = none ∧
    Book.construct (.arr []) = none :=
  ⟨rfl, rfl, rfl⟩

theorem stringMk_eq_empty (l : List Char) : ((⟨l⟩ : String) = "") ↔ l = [] := by
  constructor
  · intro h
    have h2 := congrArg String.data h
    simpa using h2
  · intro h
    rw [h]

theorem string_eq_empty_iff (s : String) : s = "" ↔ s.data = [] := by
  cases s with
  | mk l => simpa using stringMk_eq_empty l

theorem collapseList_ne_nil : ∀ (l : List Char), l ≠ [] → collapseList l ≠ []
  | [], h => absurd rfl h
  | [c], _ => by
    rw [collapseList]
    split <;> simp
  | c :: d :: rest, _ => by
    rw [collapseList]
    split
    · split
      · exact collapseList_ne_nil (d :: rest) (by simp)
      · simp
    · simp

theorem handle_string_fields_of_strip_ne (t : String) (hne : pyStripS t ≠ "") :
    handle_string_fields (.str t) = some (collapseWsS (pyStripS t)) := by
  have ht : t ≠ "" := by
    intro he
    rw [he] at hne
    exact hne rfl
  rw [handle_string_fields]
  rw [if_neg ht, if_neg hne]
  have hcol : collapseWsS (pyStripS t) ≠ "" := by
    intro heq
    exact collapseList_ne_nil (stripList t.data)
      (fun hnil => hne ((string_eq_empty_iff _).mpr hnil))
      ((string_eq_empty_iff _).mp heq)
  rw [if_neg hcol]

/-- C3: if a mapping's `title` is a string that is non-empty after
trimming, the constructed book's `name` is the normalized title; and
when neither a truthy `title` nor a truthy `name` is supplied,
construction succeeds with the sentinel name "Untitled Book". -/
theorem title_name_reconciliation (d : Dict) (t : String) :
    (Dict.get d "title" = some (.str t) → pyStripS t ≠ "" →
      ∃ b, Book.construct (.obj d) = some b ∧ b.name = collapseWsS (pyStripS t)) ∧
    ((match Dict.get d "title" with | some tv => pyTruthy tv = false | none => True) →
      (match Dict.get d "name" with | some nv => pyTruthy nv = false | none => True) →
      ∃ b, Book.construct (.obj d) = some b ∧ b.name = "Untitled Book") := by
  constructor
  · intro ht hne
    have htruthy : titleTruthy d = true := by
      rw [titleTruthy, ht]
      simp [pyTruthy]
      intro he
      rw [he] at hne
      exact hne rfl
    have hsource : nameSource d = some (.str t) := by
      rw [nameSource, if_pos htruthy, ht]
    have hnv : nameValue (extract_metadata_dict d) = some (collapseWsS (pyStripS t)) := by
      rw [nameValue, extract_metadata_get_name, hsource]
      exact handle_string_fields_of_strip_ne t hne
    refine ⟨Book.fromProcessed (extract_metadata_dict d) (collapseWsS (pyStripS t))
      (List.filter (fun kv => !(core_fields.contains kv.1)) d), ?_, rfl⟩
    rw [Book.construct_obj, hnv]
    rfl
  · intro ht hn
    have htruthy : titleTruthy d = false := by
      rw [titleTruthy]
      cases hti : Dict.get d "title" with
      | none => rfl
      | some tv => rw [hti] at ht; exact ht
    have hsource : nameSource d = none := by
      rw [nameSource, if_neg (by rw [htruthy]; exact Bool.false_ne_true)]
      cases hna : Dict.get d "name" with
      | none => rfl
      | some nv =>
        rw [hna] at hn
        have hn2 : pyTruthy nv = false := hn
        simp [hn2]
    have hnv : nameValue (extract_metadata_dict d) = some "Untitled Book" := by
      rw [nameValue, extract_metadata_get_name, hsource]
      rfl
    refine ⟨Book.fromProcessed (extract_metadata_dict d) "Untitled Book"
      (List.filter (fun kv => !(core_fields.contains kv.1)) d), ?_, rfl⟩
    rw [Book.construct_obj, hnv]
    rfl

/-- Witness for C3: `{"title": " The Hobbit "}` yields the name
"The Hobbit" and `{}` yields "Untitled Book". -/
theorem title_name_reconciliation_witness :
    (∃ b, Book.construct (.obj [("title", .str " The Hobbit ")]) = some b ∧
      b.name = "The Hobbit") ∧
    (∃ b, Book.construct (.obj []) = some b ∧ b.name = "Untitled Book") :=
  ⟨(title_name_reconciliation [("title", .str " The Hobbit ")] " The Hobbit ").1
      rfl (by decide),
    (title_name_reconciliation [] "").2 trivial trivial⟩

/-- C8: publication-date normalization — null and the empty string
give null; structured dates pass through unchanged; strings are tried
against ISO `YYYY-MM-DD`, then `YYYY/MM/DD`, then `MM/DD/YYYY`, the
first successful parse winning; unparseable strings keep the trimmed
original with a diagnostic; any other input type is stringified. -/
theorem handle_publication_date_field_spec :
    handle_publication_date_field .null = (none, false) ∧
    handle_publication_date_field (.str "") = (none, false) ∧
    (∀ dt, handle_publication_date_field (.date dt) = (some (.inl dt), false)) ∧
    (∀ s dt, s ≠ "" → tryDateFormats (pyStripS s) = some dt →
      handle_publication_date_field (.str s) = (some (.inl dt), false)) ∧
    (∀ s, s ≠ "" → tryDateFormats (pyStripS s) = none →
      handle_publication_date_field (.str s) = (some (.inr (pyStripS s)), true)) ∧
    (∀ t dt, parseDateYMD (Char.ofNat 45) t = some dt →
      tryDateFormats t = some dt) ∧
    (∀ t dt, parseDateYMD (Char.ofNat 45) t = none →
      parseDateYMD (Char.ofNat 47) t = some dt → tryDateFormats t = some dt) ∧
    (∀ t dt, parseDateYMD (Char.ofNat 45) t = none →
      parseDateYMD (Char.ofNat 47) t = none → parseDateMDY t = some dt →
      tryDateFormats t = some dt) ∧
    (∀ v, isOtherDateInput v = true →
      handle_publication_date_field v = (some (.inr (pyStr v)), false)) ∧
    handle_publication_date_field (.str " 1999-01-02 ") =
      (some (.inl ⟨1999, 1, 2⟩), false) ∧
    handle_publication_date_field (.str "1999/1/2") =
      (some (.inl ⟨1999, 1, 2⟩), false) ∧
    handle_publication_date_field (.str "01/02/1999") =
      (some (.inl ⟨1999, 1, 2⟩), false) ∧
    handle_publication_date_field (.str "2020-02-30") =
      (some (.inr "2020-02-30"), true) ∧
    handle_publication_date_field (.int 2020) = (some (.inr "2020"), false) := by
  refine ⟨rfl, rfl, fun dt => rfl, ?_, ?_, ?_, ?_, ?_, ?_,
    by decide, by decide, by decide, by decide, by decide⟩
  · intro s dt hs htry
    rw [handle_publication_date_field]
    rw [if_neg hs]
    simp only [htry]
  · intro s hs htry
    rw [handle_publication_date_field]
    rw [if_neg hs]
    simp only [htry]
  · intro t dt h1
    rw [tryDateFormats, h1]
  · intro t dt h1 h2
    rw [tryDateFormats, h1, h2]
  · intro t dt h1 h2 h3
    rw [tryDateFormats, h1, h2, h3]
  · intro v hv
    cases v with
    | null => exact absurd hv (by decide)
    | str s => exact absurd hv (by simp [isOtherDateInput])
    | date dt => exact absurd hv (by simp [isOtherDateInput])
    | bool b => rfl
    | int n => rfl
    | float q => rfl
    | arr xs => rfl
    | obj kvs => rfl

/-- Witness for C8: the quantified clauses applied at concrete inputs
covering each of the three formats, the fallback, and stringification. -/
theorem handle_publication_date_field_witness :
    handle_publication_date_field (.str "2020/3/4") =
      (some (.inl ⟨2020, 3, 4⟩), false) ∧
    handle_publication_date_field (.str " next year ") =
      (some (.inr "next year"), true) ∧
    handle_publication_date_field (.date ⟨1, 2, 3⟩) = (some (.inl ⟨1, 2, 3⟩), false) ∧
    handle_publication_date_field (.arr []) = (some (.inr "[]"), false) :=
  ⟨handle_publication_date_field_spec.2.2.2.1 "2020/3/4" ⟨2020, 3, 4⟩
      (by decide) (by decide),
    handle_publication_date_field_spec.2.2.2.2.1 " next year " (by decide) (by decide),
    handle_publication_date_field_spec.2.2.1 ⟨1, 2, 3⟩,
    handle_publication_date_field_spec.2.2.2.2.2.2.2.2.1 (.arr []) rfl⟩

/-- C9 counterexample: both the empty string and a string with an
internal tab satisfy "no leading / trailing / doubled whitespace", yet
the normalizer maps the empty string to `None` and replaces the tab by
a space, so neither is returned unchanged. -/
theorem handle_string_fields_idempotent_counterexample :
    handle_string_fields (.str "") = none ∧
    handle_string_fields (.str "a\tb") = some "a b" ∧
    noEdgeWs "a\tb" = true ∧ noAdjacentWs "a\tb".data = true :=
  ⟨rfl, by decide, by decide, by decide⟩

theorem stringMk_data (s : String) : (⟨s.data⟩ : String) = s := by
  cases s
  rfl

theorem dropWhile_eq_self_of_headAll (p : Char → Bool) (l : List Char)
    (h : l.head?.all (fun c => !p c) = true) : l.dropWhile p = l := by
  cases l with
  | nil => rfl
  | cons c rest =>
    have hc : p c = false := by simpa using h
    simp [List.dropWhile_cons, hc]

theorem stripList_eq_self (l : List Char)
    (h1 : l.head?.all (fun c => !isPyWs c) = true)
    (h2 : l.getLast?.all (fun c => !isPyWs c) = true) : stripList l = l := by
  rw [stripList, dropWhile_eq_self_of_headAll _ _ h1,
    dropWhile_eq_self_of_headAll _ _ (by rw [List.head?_reverse]; exact h2),
    List.reverse_reverse]

theorem collapseList_eq_self : ∀ (l : List Char),
    (∀ c ∈ l, isPyWs c = true → c = ' ') → noAdjacentWs l = true →
    collapseList l = l
  | [], _, _ => rfl
  | [c], hsp, _ => by
    rw [collapseList]
    cases hws : isPyWs c with
    | true => simp [hsp c (by simp) hws]
    | false => simp
  | c :: d :: rest, hsp, hadj => by
    rw [collapseList]
    rw [noAdjacentWs] at hadj
    have hadj2 : noAdjacentWs (d :: rest) = true := by
      revert hadj
      cases noAdjacentWs (d :: rest) <;> simp
    have hsub : ∀ c ∈ d :: rest, isPyWs c = true → c = ' ' :=
      fun x hx => hsp x (List.mem_cons_of_mem _ hx)
    cases hws : isPyWs c with
    | true =>
      have hd : isPyWs d = false := by
        cases hwd : isPyWs d with
        | false => rfl
        | true => rw [hws, hwd] at hadj; simp at hadj
      rw [if_pos rfl, if_neg (by rw [hd]; exact Bool.false_ne_true)]
      rw [hsp c (by simp) hws]
      rw [collapseList_eq_self (d :: rest) hsub hadj2]
    | false =>
      rw [if_neg Bool.false_ne_true]
      rw [collapseList_eq_self (d :: rest) hsub hadj2]

/-- C9 amended: for every non-empty string with no leading or trailing
whitespace, no two adjacent whitespace characters, and whose whitespace
characters are all plain spaces, the trimmed-string normalizer returns
the string unchanged. -/
theorem handle_string_fields_idempotent (s : String) (h0 : s ≠ "")
    (h1 : noEdgeWs s = true) (h2 : wsAllSpace s = true)
    (h3 : noAdjacentWs s.data = true) :
    handle_string_fields (.str s) = some s := by
  rw [noEdgeWs, Bool.and_eq_true] at h1
  have hstrip : pyStripS s = s := by
    rw [pyStripS, stripList_eq_self s.data h1.1 h1.2, stringMk_data]
  have hne : pyStripS s ≠ "" := by rw [hstrip]; exact h0
  rw [handle_string_fields_of_strip_ne s hne, hstrip]
  have hsp : ∀ c ∈ s.data, isPyWs c = true → c = ' ' := by
    intro c hc hw
    have hall := (List.all_eq_true.mp h2) c hc
    simp [hw] at hall
    exact hall
  rw [collapseWsS, collapseList_eq_self s.data hsp h3, stringMk_data]

/-- Witness for C9 (amended) at a concrete normalized string. -/
theorem handle_string_fields_idempotent_witness :
    handle_string_fields (.str "The Hobbit") = some "The Hobbit" :=
  handle_string_fields_idempotent "The Hobbit" (by decide) (by decide)
    (by decide) (by decide)

theorem natReprAux_ne_nil (fuel n : Nat) (h : fuel ≠ 0) : natReprAux fuel n ≠ [] := by
  cases fuel with
  | zero => exact absurd rfl h
  | succ f =>
    rw [natReprAux]
    split
    · simp
    · simp

theorem natRepr_ne_empty (n : Nat) : natRepr n ≠ "" := by
  rw [natRepr]
  intro h
  exact natReprAux_ne_nil (n + 1) n (Nat.succ_ne_zero n) ((stringMk_eq_empty _).mp h)

theorem stringAppend_data (a b : String) : (a ++ b).data = a.data ++ b.data := rfl

theorem append_ne_empty_of_left (a b : String) (h : a ≠ "") : a ++ b ≠ "" := by
  intro he
  have hd := (string_eq_empty_iff _).mp he
  rw [stringAppend_data] at hd
  exact h ((string_eq_empty_iff a).mpr (List.append_eq_nil.mp hd).1)

theorem append_ne_empty_of_right (a b : String) (h : b ≠ "") : a ++ b ≠ "" := by
  intro he
  have hd := (string_eq_empty_iff _).mp he
  rw [stringAppend_data] at hd
  exact h ((string_eq_empty_iff b).mpr (List.append_eq_nil.mp hd).2)

theorem intRepr_ne_empty (i : Int) : intRepr i ≠ "" := by
  rw [intRepr]
  split
  · exact append_ne_empty_of_right _ _ (natRepr_ne_empty _)
  · exact natRepr_ne_empty _

theorem floatRepr_ne_empty (q : Rat) : floatRepr q ≠ "" :=
  append_ne_empty_of_left _ _ (intRepr_ne_empty _)

theorem strRepr_ne_empty (s : String) : strRepr s ≠ "" := by
  rw [strRepr]
  exact append_ne_empty_of_left _ _ (by intro h; simpa using (stringMk_eq_empty _).mp h)

theorem pyRepr_ne_empty (v : JValue) : pyRepr v ≠ "" := by
  cases v with
  | null => decide
  | bool b => cases b <;> decide
  | int n => rw [pyRepr]; exact intRepr_ne_empty n
  | float q => rw [pyRepr]; exact floatRepr_ne_empty q
  | str s => rw [pyRepr]; exact strRepr_ne_empty s
  | date dt => rw [pyRepr]; exact append_ne_empty_of_right _ _ (by decide)
  | arr xs => rw [pyRepr]; exact append_ne_empty_of_right _ _ (by decide)
  | obj kvs => rw [pyRepr]; exact append_ne_empty_of_right _ _ (by decide)

theorem pyStr_ne_empty_of_not_str (v : JValue) (h : ∀ s, v ≠ .str s) : pyStr v ≠ "" := by
  cases v with
  | str s => exact absurd rfl (h s)
  | date dt =>
    rw [pyStr, PyDate.isoStr]
    exact append_ne_empty_of_right _ _ (natRepr_ne_empty _)
  | null => exact pyRepr_ne_empty .null
  | bool b => exact pyRepr_ne_empty (.bool b)
  | int n => exact pyRepr_ne_empty (.int n)
  | float q => exact pyRepr_ne_empty (.float q)
  | arr xs => exact pyRepr_ne_empty (.arr xs)
  | obj kvs => exact pyRepr_ne_empty (.obj kvs)

theorem head_all_dropWhile (p : Char → Bool) (l : List Char) :
    ((l.dropWhile p).head?.all (fun c => !p c)) = true := by
  induction l with
  | nil => rfl
  | cons c rest ih =>
    rw [List.dropWhile_cons]
    cases hc : p c with
    | true => simpa using ih
    | false => simp [hc]

theorem strip_head_all (l : List Char) :
    ((stripList l).head?.all (fun c => !isPyWs c)) = true := by
  rw [stripList]
  have hsuf : (l.dropWhile isPyWs).reverse.dropWhile isPyWs <:+
      (l.dropWhile isPyWs).reverse := List.dropWhile_suffix _
  have hpre : ((l.dropWhile isPyWs).reverse.dropWhile isPyWs).reverse <+:
      l.dropWhile isPyWs := by
    have h2 := hsuf.reverse
    simpa using h2
  obtain ⟨t, ht⟩ := hpre
  cases hres : ((l.dropWhile isPyWs).reverse.dropWhile isPyWs).reverse with
  | nil => rfl
  | cons c cs =>
    rw [hres] at ht
    have hh := head_all_dropWhile isPyWs l
    rw [← ht] at hh
    simpa using hh

theorem strip_last_all (l : List Char) :
    ((stripList l).getLast?.all (fun c => !isPyWs c)) = true := by
  rw [stripList, List.getLast?_reverse]
  exact head_all_dropWhile isPyWs ((l.dropWhile isPyWs).reverse)

theorem collapse_head : ∀ (l : List Char) (c : Char), l.head? = some c →
    (collapseList l).head? = some (if isPyWs c then ' ' else c)
  | [], _, h => by simp at h
  | [x], c, h => by
    have hxc : x = c := by simpa using h
    rw [← hxc, collapseList]
    cases hws : isPyWs x <;> simp
  | x :: d :: rest, c, h => by
    have hxc : x = c := by simpa using h
    rw [← hxc, collapseList]
    cases hws : isPyWs x with
    | true =>
      cases hwd : isPyWs d with
      | true =>
        have hrec := collapse_head (d :: rest) d rfl
        rw [hwd] at hrec
        simpa using hrec
      | false => simp
    | false => simp

theorem collapse_last_all : ∀ (l : List Char),
    (l.getLast?.all (fun c => !isPyWs c)) = true →
    ((collapseList l).getLast?.all (fun c => !isPyWs c)) = true
  | [], _ => rfl
  | [c], h => by
    have hc : isPyWs c = false := by simpa using h
    rw [collapseList]
    simp [hc]
  | c :: d :: rest, h => by
    have htail : ((d :: rest).getLast?.all (fun c => !isPyWs c)) = true := by
      rw [List.getLast?_cons_cons] at h
      exact h
    have hne := collapseList_ne_nil (d :: rest) (by simp)
    have hrec := collapse_last_all (d :: rest) htail
    obtain ⟨x, tl, hx⟩ : ∃ x tl, collapseList (d :: rest) = x :: tl := by
      cases hcc : collapseList (d :: rest) with
      | nil => exact absurd hcc hne
      | cons x tl => exact ⟨x, tl, rfl⟩
    rw [collapseList]
    cases hws : isPyWs c with
    | true =>
      cases hwd : isPyWs d with
      | true => simpa using hrec
      | false =>
        show ((' ' :: collapseList (d :: rest)).getLast?.all (fun c => !isPyWs c)) = true
        rw [hx] at hrec ⊢
        simpa [List.getLast?_cons_cons] using hrec
    | false =>
      show ((c :: collapseList (d :: rest)).getLast?.all (fun c => !isPyWs c)) = true
      rw [hx] at hrec ⊢
      simpa [List.getLast?_cons_cons] using hrec

theorem collapse_ws_space : ∀ (l : List Char) (c : Char), c ∈ collapseList l →
    isPyWs c = true → c = ' '
  | [], _, hmem, _ => by simp [collapseList] at hmem
  | [x], c, hmem, hws => by
    rw [collapseList] at hmem
    split at hmem
    · simpa using hmem
    · next hx =>
      obtain rfl : c = x := by simpa using hmem
      simp at hx
      rw [hx] at hws
      exact absurd hws (by simp)
  | x :: d :: rest, c, hmem, hws => by
    rw [collapseList] at hmem
    split at hmem
    · split at hmem
      · exact collapse_ws_space (d :: rest) c hmem hws
      · rcases List.mem_cons.mp hmem with hc | hc
        · exact hc
        · exact collapse_ws_space (d :: rest) c hc hws
    · next hx =>
      rcases List.mem_cons.mp hmem with hc | hc
      · simp at hx
        rw [hc, hx] at hws
        exact absurd hws (by simp)
      · exact collapse_ws_space (d :: rest) c hc hws

theorem collapse_noAdjacent : ∀ (l : List Char), noAdjacentWs (collapseList l) = true
  | [] => rfl
  | [c] => by
    rw [collapseList]
    split <;> rfl
  | c :: d :: rest => by
    have hne := collapseList_ne_nil (d :: rest) (by simp)
    have hrec := collapse_noAdjacent (d :: rest)
    have hhead := collapse_head (d :: rest) d rfl
    obtain ⟨x, tl, hx⟩ : ∃ x tl, collapseList (d :: rest) = x :: tl := by
      cases hcc : collapseList (d :: rest) with
      | nil => exact absurd hcc hne
      | cons x tl => exact ⟨x, tl, rfl⟩
    have hxval : x = if isPyWs d then ' ' else d := by
      rw [hx] at hhead
      simpa using hhead
    rw [collapseList]
    cases hws : isPyWs c with
    | true =>
      cases hwd : isPyWs d with
      | true => simpa using hrec
      | false =>
        show noAdjacentWs (' ' :: collapseList (d :: rest)) = true
        rw [hwd] at hxval
        simp at hxval
        rw [hx] at hrec ⊢
        rw [hxval] at hrec ⊢
        rw [noAdjacentWs, Bool.and_eq_true]
        refine ⟨?_, hrec⟩
        rw [hwd]
        decide
    | false =>
      show noAdjacentWs (c :: collapseList (d :: rest)) = true
      rw [hx] at hrec ⊢
      rw [noAdjacentWs, Bool.and_eq_true]
      refine ⟨?_, hrec⟩
      rw [hws]
      simp

/-- C10 counterexample: a successfully constructed book whose `name`
contains a doubled internal space — `str()` of a supplied list title is
stored as the name without whitespace normalization, refuting the
collapsed-whitespace part of the claim. -/
theorem book_name_invariant_counterexample :
    (Book.construct (.obj [("title", .arr [.str "a  b"])])).map Book.name =
      some "['a  b']" ∧
    noAdjacentWs ("['a  b']").data = false :=
  ⟨rfl, by decide⟩

theorem handle_string_fields_str_inv (s nm : String)
    (h : handle_string_fields (.str s) = some nm) :
    pyStripS s ≠ "" ∧ nm = collapseWsS (pyStripS s) := by
  rw [handle_string_fields] at h
  by_cases h1 : s = ""
  · rw [if_pos h1] at h
    exact absurd h (by simp)
  · rw [if_neg h1] at h
    by_cases h2 : pyStripS s = ""
    · rw [if_pos h2] at h
      exact absurd h (by simp)
    · rw [if_neg h2] at h
      have h3 : (if collapseWsS (pyStripS s) = "" then none
          else some (collapseWsS (pyStripS s))) = some nm := h
      by_cases h4 : collapseWsS (pyStripS s) = ""
      · rw [if_pos h4] at h3
        exact absurd h3 (by simp)
      · rw [if_neg h4] at h3
        exact ⟨h2, (Option.some.inj h3).symm⟩

/-- C10 (amended): for every successfully constructed book, `name` is
a non-empty string equal to the sentinel "Untitled Book" or to the
string-normalizer's output on the supplied title/name value; when that
value is a string, `name` moreover has no edge whitespace, only plain
spaces as whitespace, and no adjacent whitespace. -/
theorem book_name_invariant (d : Dict) (b : Book)
    (h : Book.construct (.obj d) = some b) :
    b.name ≠ "" ∧
    (nameSource d = none → b.name = "Untitled Book") ∧
    (∀ v, nameSource d = some v → handle_string_fields v = some b.name) ∧
    (∀ s, nameSource d = some (.str s) →
      noEdgeWs b.name = true ∧ wsAllSpace b.name = true ∧
      noAdjacentWs b.name.data = true) := by
  rw [Book.construct_obj] at h
  cases hnv : nameValue (extract_metadata_dict d) with
  | none => rw [hnv] at h; exact absurd h (by simp)
  | some nm =>
    rw [hnv] at h
    simp only [Option.map_some'] at h
    have hbname : b.name = nm := by rw [← Option.some.inj h]; rfl
    have hkey : handle_string_fields ((nameSource d).getD (.str "Untitled Book")) =
        some nm := by
      rw [nameValue, extract_metadata_get_name] at hnv
      exact hnv
    cases hs : nameSource d with
    | none =>
      rw [hs] at hkey
      have hnm : nm = "Untitled Book" :=
        (Option.some.inj (show (some "Untitled Book" : Option String) = some nm from
          hkey)).symm
      refine ⟨by rw [hbname, hnm]; decide, fun _ => by rw [hbname, hnm], ?_, ?_⟩
      · intro v hv
        exact absurd hv (by simp)
      · intro s hv
        exact absurd hv (by simp)
    | some v =>
      rw [hs] at hkey
      have hkey2 : handle_string_fields v = some nm := hkey
      refine ⟨?_, ?_, ?_, ?_⟩
      · rw [hbname]
        cases v with
        | null => exact absurd hkey2 (by simp [handle_string_fields])
        | str s =>
          obtain ⟨hne, hnm⟩ := handle_string_fields_str_inv s nm hkey2
          rw [hnm]
          intro he
          exact collapseList_ne_nil (stripList s.data)
            (fun hn => hne ((string_eq_empty_iff _).mpr hn))
            ((string_eq_empty_iff _).mp he)
        | bool bb =>
          rw [show nm = pyStr (.bool bb) from (Option.some.inj hkey2).symm]
          exact pyStr_ne_empty_of_not_str _ (fun s hcon => JValue.noConfusion hcon)
        | int n =>
          rw [show nm = pyStr (.int n) from (Option.some.inj hkey2).symm]
          exact pyStr_ne_empty_of_not_str _ (fun s hcon => JValue.noConfusion hcon)
        | float q =>
          rw [show nm = pyStr (.float q) from (Option.some.inj hkey2).symm]
          exact pyStr_ne_empty_of_not_str _ (fun s hcon => JValue.noConfusion hcon)
        | date dt =>
          rw [show nm = pyStr (.date dt) from (Option.some.inj hkey2).symm]
          exact pyStr_ne_empty_of_not_str _ (fun s hcon => JValue.noConfusion hcon)
        | arr xs =>
          rw [show nm = pyStr (.arr xs) from (Option.some.inj hkey2).symm]
          exact pyStr_ne_empty_of_not_str _ (fun s hcon => JValue.noConfusion hcon)
        | obj kvs =>
          rw [show nm = pyStr (.obj kvs) from (Option.some.inj hkey2).symm]
          exact pyStr_ne_empty_of_not_str _ (fun s hcon => JValue.noConfusion hcon)
      · intro hnone
        exact absurd hnone (by simp)
      · intro v' hv'
        obtain rfl := Option.some.inj hv'
        rw [hbname]
        exact hkey2
      · intro s hv'
        obtain rfl := Option.some.inj hv'
        obtain ⟨hne, hnm⟩ := handle_string_fields_str_inv s nm hkey2
        rw [hbname, hnm]
        refine ⟨?_, ?_, ?_⟩
        · rw [noEdgeWs, Bool.and_eq_true]
          constructor
          · show ((collapseList (stripList s.data)).head?.all (fun c => !isPyWs c)) = true
            cases hsd : stripList s.data with
            | nil => rfl
            | cons c cs =>
              have hh := collapse_head (stripList s.data) c (by rw [hsd]; rfl)
              have hcws : isPyWs c = false := by
                have hsh := strip_head_all s.data
                rw [hsd] at hsh
                simpa using hsh
              rw [hcws] at hh
              simp only [Bool.false_eq_true, if_false] at hh
              rw [hsd] at hh
              rw [hh]
              simpa using hcws
          · show ((collapseList (stripList s.data)).getLast?.all (fun c => !isPyWs c)) = true
            exact collapse_last_all (stripList s.data) (strip_last_all s.data)
        · show ((collapseList (stripList s.data)).all (fun c => !isPyWs c || c == ' ')) = true
          rw [List.all_eq_true]
          intro c hc
          cases hcw : isPyWs c with
          | true => simp [collapse_ws_space (stripList s.data) c hc hcw]
          | false => simp [hcw]
        · exact collapse_noAdjacent (stripList s.data)

/-- Witness for C10 (amended) at a record whose title needs trimming
and collapsing. -/
theorem book_name_invariant_witness :
    sampleBook3.name ≠ "" ∧
    (nameSource sampleRecord3 = none → sampleBook3.name = "Untitled Book") ∧
    (∀ v, nameSource sampleRecord3 = some v →
      handle_string_fields v = some sampleBook3.name) ∧
    (∀ s, nameSource sampleRecord3 = some (.str s) →
      noEdgeWs sampleBook3.name = true ∧ wsAllSpace sampleBook3.name = true ∧
      noAdjacentWs sampleBook3.name.data = true) :=
  book_name_invariant sampleRecord3 sampleBook3 rfl

/-- C4: for every successfully constructed book, `get_all_metadata`
is exactly the non-null descriptive core fields (authors only when
non-empty, the publication date rendered as its string form) unioned
with the overflow mapping, and the navigation keys and `name` never
appear in it. -/
theorem get_all_metadata_spec (d : Dict) (b : Book) (hnd : d.nodupKeys)
    (h : Book.construct (.obj d) = some b) :
    (Dict.get b.get_all_metadata "publisher" = none ∧
      Dict.get b.get_all_metadata "genre" = none ∧
      Dict.get b.get_all_metadata "language" = none ∧
      Dict.get b.get_all_metadata "format" = none ∧
      Dict.get b.get_all_metadata "name" = none) ∧
    Dict.get b.get_all_metadata "title" = b.title.map .str ∧
    Dict.get b.get_all_metadata "authors" =
      (if b.authors = [] then none else some (.arr (b.authors.map .str))) ∧
    Dict.get b.get_all_metadata "isbn" = b.isbn.map .str ∧
    Dict.get b.get_all_metadata "publication_date" =
      b.publication_date.map (fun pv => .str (pubValStr pv)) ∧
    Dict.get b.get_all_metadata "pages" = b.pages.map .int ∧
    Dict.get b.get_all_metadata "price" = b.price.map .float ∧
    Dict.get b.get_all_metadata "description" = b.description.map .str ∧
    Dict.get b.get_all_metadata "cover_image_url" = b.cover_image_url.map .str ∧
    Dict.get b.get_all_metadata "purchase_url" = b.purchase_url.map .str ∧
    (∀ k, core_fields.contains k = false →
      Dict.get b.get_all_metadata k = b.raw_metadata.get k) := by
  rw [Book.construct_obj] at h
  cases hn : nameValue (extract_metadata_dict d) with
  | none => rw [hn] at h; exact absurd h (by simp)
  | some nm =>
    rw [hn] at h
    simp only [Option.map_some'] at h
    have hrm : b.raw_metadata = List.filter (fun kv => !(core_fields.contains kv.1)) d := by
      rw [← Option.some.inj h]
      rfl
    have hkf : ∀ K : String, (!(core_fields.contains K)) = false →
        Dict.hasKey b.raw_metadata K = false := by
      intro K hK
      rw [hrm]
      exact Dict.hasKey_filterKeys_false (fun s => !(core_fields.contains s)) d K hK
    have hndrm : b.raw_metadata.nodupKeys := by
      rw [hrm]
      exact List.Nodup.sublist (List.Sublist.map Prod.fst (List.filter_sublist d)) hnd
    refine ⟨⟨?_, ?_, ?_, ?_, ?_⟩, ?_, ?_, ?_, ?_, ?_, ?_, ?_, ?_, ?_, ?_⟩
    · simp only [Book.get_all_metadata]
      rw [Dict.get_updateWith_of_hasKey_false _ _ _ (hkf _ (by decide))]
      cases b.authors <;> simp [Dict.get, Dict.get_append, optEntry_get]
    · simp only [Book.get_all_metadata]
      rw [Dict.get_updateWith_of_hasKey_false _ _ _ (hkf _ (by decide))]
      cases b.authors <;> simp [Dict.get, Dict.get_append, optEntry_get]
    · simp only [Book.get_all_metadata]
      rw [Dict.get_updateWith_of_hasKey_false _ _ _ (hkf _ (by decide))]
      cases b.authors <;> simp [Dict.get, Dict.get_append, optEntry_get]
    · simp only [Book.get_all_metadata]
      rw [Dict.get_updateWith_of_hasKey_false _ _ _ (hkf _ (by decide))]
      cases b.authors <;> simp [Dict.get, Dict.get_append, optEntry_get]
    · simp only [Book.get_all_metadata]
      rw [Dict.get_updateWith_of_hasKey_false _ _ _ (hkf _ (by decide))]
      cases b.authors <;> simp [Dict.get, Dict.get_append, optEntry_get]
    · simp only [Book.get_all_metadata]
      rw [Dict.get_updateWith_of_hasKey_false _ _ _ (hkf _ (by decide))]
      cases b.title <;> cases b.authors <;> simp [Dict.get, Dict.get_append, optEntry_get]
    · simp only [Book.get_all_metadata]
      rw [Dict.get_updateWith_of_hasKey_false _ _ _ (hkf _ (by decide))]
      cases b.authors <;> simp [Dict.get, Dict.get_append, optEntry_get]
    · simp only [Book.get_all_metadata]
      rw [Dict.get_updateWith_of_hasKey_false _ _ _ (hkf _ (by decide))]
      cases b.isbn <;> cases b.authors <;> simp [Dict.get, Dict.get_append, optEntry_get]
    · simp only [Book.get_all_metadata]
      rw [Dict.get_updateWith_of_hasKey_false _ _ _ (hkf _ (by decide))]
      cases b.publication_date <;> cases b.authors <;>
        simp [Dict.get, Dict.get_append, optEntry_get]
    · simp only [Book.get_all_metadata]
      rw [Dict.get_updateWith_of_hasKey_false _ _ _ (hkf _ (by decide))]
      cases b.pages <;> cases b.authors <;> simp [Dict.get, Dict.get_append, optEntry_get]
    · simp only [Book.get_all_metadata]
      rw [Dict.get_updateWith_of_hasKey_false _ _ _ (hkf _ (by decide))]
      cases b.price <;> cases b.authors <;> simp [Dict.get, Dict.get_append, optEntry_get]
    · simp only [Book.get_all_metadata]
      rw [Dict.get_updateWith_of_hasKey_false _ _ _ (hkf _ (by decide))]
      cases b.description <;> cases b.authors <;> simp [Dict.get, Dict.get_append, optEntry_get]
    · simp only [Book.get_all_metadata]
      rw [Dict.get_updateWith_of_hasKey_false _ _ _ (hkf _ (by decide))]
      cases b.cover_image_url <;> cases b.authors <;>
        simp [Dict.get, Dict.get_append, optEntry_get]
    · simp only [Book.get_all_metadata]
      rw [Dict.get_updateWith_of_hasKey_false _ _ _ (hkf _ (by decide))]
      cases b.purchase_url <;> cases b.authors <;> simp [Dict.get, Dict.get_append, optEntry_get]
    · intro k hknc
      have hkmem : k ∉ core_fields := by simpa using hknc
      simp only [core_fields, List.mem_cons, List.not_mem_nil, or_false, not_or] at hkmem
      obtain ⟨q1, q2, q3, q4, q5, q6, q7, q8, q9, q10, q11, q12, q13, q14⟩ := hkmem
      simp only [Book.get_all_metadata]
      cases hhk : Dict.hasKey b.raw_metadata k with
      | false =>
        rw [Dict.get_updateWith_of_hasKey_false _ _ _ hhk,
          Dict.get_eq_none_of_hasKey_false _ _ hhk]
        cases b.authors <;>
          simp [Dict.get, Dict.get_append, optEntry_get, Ne.symm q1, Ne.symm q2, Ne.symm q3,
            Ne.symm q4, Ne.symm q5, Ne.symm q6, Ne.symm q7, Ne.symm q8, Ne.symm q9,
            Ne.symm q10, Ne.symm q11, Ne.symm q12, Ne.symm q13, Ne.symm q14]
      | true =>
        rw [Dict.hasKey_eq_isSome] at hhk
        cases hgv : Dict.get b.raw_metadata k with
        | none => rw [hgv] at hhk; exact absurd hhk (by simp)
        | some v => exact Dict.get_updateWith_of_get _ _ _ _ hndrm hgv

/-- Witness for C4 at a record with a navigation field and one
overflow key. -/
theorem get_all_metadata_witness :
    (Dict.get sampleBook2.get_all_metadata "publisher" = none ∧
      Dict.get sampleBook2.get_all_metadata "genre" = none ∧
      Dict.get sampleBook2.get_all_metadata "language" = none ∧
      Dict.get sampleBook2.get_all_metadata "format" = none ∧
      Dict.get sampleBook2.get_all_metadata "name" = none) ∧
    Dict.get sampleBook2.get_all_metadata "title" = sampleBook2.title.map .str ∧
    Dict.get sampleBook2.get_all_metadata "authors" =
      (if sampleBook2.authors = [] then none
        else some (.arr (sampleBook2.authors.map .str))) ∧
    Dict.get sampleBook2.get_all_metadata "isbn" = sampleBook2.isbn.map .str ∧
    Dict.get sampleBook2.get_all_metadata "publication_date" =
      sampleBook2.publication_date.map (fun pv => .str (pubValStr pv)) ∧
    Dict.get sampleBook2.get_all_metadata "pages" = sampleBook2.pages.map .int ∧
    Dict.get sampleBook2.get_all_metadata "price" = sampleBook2.price.map .float ∧
    Dict.get sampleBook2.get_all_metadata "description" =
      sampleBook2.description.map .str ∧
    Dict.get sampleBook2.get_all_metadata "cover_image_url" =
      sampleBook2.cover_image_url.map .str ∧
    Dict.get sampleBook2.get_all_metadata "purchase_url" =
      sampleBook2.purchase_url.map .str ∧
    (∀ k, core_fields.contains k = false →
      Dict.get sampleBook2.get_all_metadata k = sampleBook2.raw_metadata.get k) :=
  get_all_metadata_spec sampleRecord2 sampleBook2
    (show (Dict.keys sampleRecord2).Nodup by decide) rfl
